import Mathlib

/-!
Verification of the Relay TCP message-relay core.

Shallow embedding of the repository's protocol codec
(packages/protocol/src/frame.ts, constants.ts), the per-connection
state machine and incremental parser
(packages/transport/src/connection/connection.ts), the server frame
dispatcher (apps/server/src/server.ts) and the room registry
(apps/server/src/rooms/room.ts, roomManager.ts).

Buffers are lists of byte values (Nat, < 256 where relevant).  The
opaque JSON library functions (JSON.stringify / JSON.parse) that the
code calls are abstracted as a codec record carrying the library's
round-trip contract; everything else is translated directly from the
TypeScript source.
-/

namespace Relay

instance {ε α : Type} [DecidableEq ε] [DecidableEq α] : DecidableEq (Except ε α)
  | .error a, .error b => decidable_of_iff (a = b) (by simp)
  | .error _, .ok _ => isFalse (by simp)
  | .ok _, .error _ => isFalse (by simp)
  | .ok a, .ok b => decidable_of_iff (a = b) (by simp)

/-! ## Protocol constants (packages/protocol/src/constants.ts) -/

def PROTOCOL_VERSION : Nat := 1

def HEADER_SIZE : Nat := 7

def MAX_FRAME_SIZE : Nat := 10 * 1024 * 1024

def FLAG_UTF8_JSON : Nat := 1

def FLAG_BINARY : Nat := 2

/-- MessageType.HEARTBEAT = 0x05. -/
def HEARTBEAT : Nat := 5

/-! ## Buffer primitives (Node.js Buffer, big-endian reads/writes) -/

/-- Buffer.writeUInt32BE: the four big-endian bytes of a uint32. -/
def writeUInt32BE (n : Nat) : List Nat :=
  [n / 2 ^ 24 % 256, n / 2 ^ 16 % 256, n / 2 ^ 8 % 256, n % 256]

/-- Buffer.readUInt32BE at offset 0 (caller guarantees length ≥ 4). -/
def readUInt32BE (b : List Nat) : Nat :=
  b.getD 0 0 * 2 ^ 24 + b.getD 1 0 * 2 ^ 16 + b.getD 2 0 * 2 ^ 8 + b.getD 3 0

/-! ## JSON library abstraction

`JSON.stringify`/`JSON.parse` are Node library functions, not
repository code.  They are abstracted as a codec over an arbitrary
type `J` of JSON-serializable values, carrying the library contract
the code relies on: parsing a stringified value gives it back, and
stringify never returns an empty byte string. -/

structure JsonCodec (J : Type) where
  stringify : J → List Nat
  parse : List Nat → Option J
  parse_stringify : ∀ j, parse (stringify j) = some j
  stringify_ne_nil : ∀ j, stringify j ≠ []
  stringify_lt : ∀ j, ∀ b ∈ stringify j, b < 256

/-- A concrete instantiation of the codec (the single JSON value
`null`, serialized as the UTF-8 bytes of "null"), used to evaluate
the universally quantified theorems at concrete inputs. -/
def unitCodec : JsonCodec Unit where
  stringify _ := [110, 117, 108, 108]
  parse bs := if bs = [110, 117, 108, 108] then some () else none
  parse_stringify := by intro j; rfl
  stringify_ne_nil := by intro j; simp
  stringify_lt := by intro j b hb; fin_cases hb <;> decide

/-- The `payload?: unknown` argument of encodeFrame: absent
(undefined/null), a Buffer, or a JSON-serializable value. -/
inductive Payload (J : Type) where
  | none
  | binary (bs : List Nat)
  | json (j : J)
deriving DecidableEq

/-! ## Frame encoding (frame.ts, encodeFrame) -/

/-- The payload bytes encodeFrame writes (frame.ts lines 36-46). -/
def payloadBuffer {J : Type} (codec : JsonCodec J) : Payload J → List Nat
  | .none => []
  | .binary bs => bs
  | .json j => codec.stringify j

/-- The flags byte encodeFrame writes: caller flags OR the
auto-detected encoding bit (frame.ts lines 33-46). -/
def computedFlags {J : Type} (flags : Nat) : Payload J → Nat
  | .none => flags
  | .binary _ => flags ||| FLAG_BINARY
  | .json _ => flags ||| FLAG_UTF8_JSON

/-- frame.ts encodeFrame: 4-byte big-endian length, then version,
type, flags, payload.  `totalLength = HEADER_SIZE - 4 + |payload|`. -/
def encodeFrame {J : Type} (codec : JsonCodec J) (type : Nat)
    (payload : Payload J) (flags : Nat) : List Nat :=
  let pb := payloadBuffer codec payload
  let cf := computedFlags flags payload
  let totalLength := HEADER_SIZE - 4 + pb.length
  writeUInt32BE totalLength ++ PROTOCOL_VERSION :: type :: cf :: pb

/-! ## Frame decoding (frame.ts, decodeFrame) -/

/-- The decoded payload of a ParsedFrame: `null` when the payload is
empty, a JSON value, or raw bytes. -/
inductive DecodedPayload (J : Type) where
  | null
  | json (j : J)
  | binary (bs : List Nat)
deriving DecidableEq

structure ParsedFrame (J : Type) where
  version : Nat
  type : Nat
  flags : Nat
  payload : DecodedPayload J
deriving DecidableEq

inductive ProtocolErr where
  | frameTooShort
  | invalidJson
deriving DecidableEq

/-- frame.ts decodeFrame: takes the frame buffer without the 4-byte
length field; errors when shorter than 3 bytes or when the
UTF8_JSON flag is claimed but the payload does not parse. -/
def decodeFrame {J : Type} (codec : JsonCodec J) (frameBuffer : List Nat) :
    Except ProtocolErr (ParsedFrame J) :=
  if frameBuffer.length < HEADER_SIZE - 4 then .error .frameTooShort
  else
    let version := frameBuffer.getD 0 0
    let type := frameBuffer.getD 1 0
    let flags := frameBuffer.getD 2 0
    let payloadBytes := frameBuffer.drop 3
    if 0 < payloadBytes.length then
      if flags &&& FLAG_UTF8_JSON ≠ 0 then
        match codec.parse payloadBytes with
        | some j => .ok ⟨version, type, flags, .json j⟩
        | Option.none => .error .invalidJson
      else if flags &&& FLAG_BINARY ≠ 0 then
        .ok ⟨version, type, flags, .binary payloadBytes⟩
      else
        .ok ⟨version, type, flags, .binary payloadBytes⟩
    else .ok ⟨version, type, flags, .null⟩

/-! ## Frame extraction (frame.ts, extractFrame) -/

/-- A wire Frame as extractFrame returns it (types.ts Frame). -/
structure Frame where
  length : Nat
  version : Nat
  type : Nat
  flags : Nat
  payload : List Nat
deriving DecidableEq

/-- extractFrame outcome: `needMore` is the null return, `ok` the
frame with the remaining bytes, `rangeError` the uncaught exception
Buffer.readUInt8 throws when the declared length is below 3. -/
inductive ExtractResult where
  | needMore
  | ok (frame : Frame) (remaining : List Nat)
  | rangeError
deriving DecidableEq

/-- frame.ts extractFrame, translated line by line. -/
def extractFrame (buffer : List Nat) : ExtractResult :=
  if buffer.length < 4 then .needMore
  else
    let frameLength := readUInt32BE buffer
    let totalSize := 4 + frameLength
    if buffer.length < totalSize then .needMore
    else
      let frameBuffer := (buffer.drop 4).take frameLength
      if frameBuffer.length < 3 then .rangeError
      else
        .ok ⟨frameLength, frameBuffer.getD 0 0, frameBuffer.getD 1 0,
             frameBuffer.getD 2 0, frameBuffer.drop 3⟩
          (buffer.drop totalSize)

/-! ## The extractor loop over an accumulating receive buffer

This is the repeated-extraction loop shared by client.ts parse and
Connection.parse: append a chunk, then extract complete frames until
extractFrame reports it needs more data.  Fuel bounds the recursion;
every successful extraction consumes at least 4 bytes, so a fuel of
`buffer.length + 1` never runs out.  A `rangeError` from extractFrame
is an uncaught exception, modelled as `none`. -/

def drainLoop : Nat → List Nat → Option (List Frame × List Nat)
  | 0, buf => some ([], buf)
  | fuel + 1, buf =>
    match extractFrame buf with
    | .needMore => some ([], buf)
    | .rangeError => Option.none
    | .ok f rem => (drainLoop fuel rem).map fun p => (f :: p.1, p.2)

def feedChunksAux (acc : List Frame) (buf : List Nat) :
    List (List Nat) → Option (List Frame × List Nat)
  | [] => some (acc, buf)
  | c :: cs =>
    match drainLoop ((buf ++ c).length + 1) (buf ++ c) with
    | Option.none => Option.none
    | some (fs, b) => feedChunksAux (acc ++ fs) b cs

/-- Feed a sequence of chunks into an initially empty receive buffer,
draining complete frames after every append. -/
def feedChunks (chunks : List (List Nat)) : Option (List Frame × List Nat) :=
  feedChunksAux [] [] chunks

/-! ## Connection state machine (connection.ts) -/

inductive ConnectionState where
  | INIT
  | OPEN
  | DRAINING
  | CLOSING
  | CLOSED
deriving DecidableEq, Fintype

open ConnectionState in
/-- The `transitions` record of Connection.isTransitionAllowed
(connection.ts lines 272-286). -/
def allowedTargets : ConnectionState → List ConnectionState
  | INIT => [OPEN]
  | OPEN => [DRAINING, CLOSING, CLOSED]
  | DRAINING => [OPEN, CLOSING, CLOSED]
  | CLOSING => [CLOSED]
  | CLOSED => []

/-- Connection.isTransitionAllowed. -/
def isTransitionAllowed (a b : ConnectionState) : Bool :=
  (allowedTargets a).contains b

/-- Connection.transition (connection.ts lines 252-263): a
self-transition returns without effect; a disallowed transition
throws before the state is assigned, so the state is unchanged. -/
def transition (s next : ConnectionState) : Except String ConnectionState :=
  if s = next then .ok s
  else if isTransitionAllowed s next then .ok next
  else .error "Invalid state transition"

/-- Connection.close (connection.ts lines 224-234): no-op when
already CLOSING or CLOSED, otherwise transition to CLOSING. -/
def closeStep (s : ConnectionState) : Except String ConnectionState :=
  if s = ConnectionState.CLOSING ∨ s = ConnectionState.CLOSED then .ok s
  else transition s ConnectionState.CLOSING

/-! ## Connection event traces (for the close-exactly-once latch)

One step per socket/API event wired in connection.ts: explicit
close() calls, the socket close event (handleClose), socket errors
and fatal parse errors (both emit an error and call close()), the
drain event, and send() calls.  Each step returns the next state and
whether the terminal close notification was emitted in that step. -/

inductive ConnEvent where
  | closeCall
  | socketClose
  | socketError
  | parseFatal
  | socketDrain
  | sendCall (canWrite : Bool)
deriving DecidableEq

open ConnectionState in
def step (s : ConnectionState) : ConnEvent → Except String (ConnectionState × Bool)
  | .closeCall => (closeStep s).map fun s2 => (s2, false)
  | .socketClose =>
    if s = CLOSED then .ok (s, false)
    else (transition s CLOSED).map fun s2 => (s2, true)
  | .socketError => (closeStep s).map fun s2 => (s2, false)
  | .parseFatal => (closeStep s).map fun s2 => (s2, false)
  | .socketDrain =>
    if s = DRAINING then (transition s OPEN).map fun s2 => (s2, false)
    else .ok (s, false)
  | .sendCall canWrite =>
    if s = OPEN ∨ s = DRAINING then
      if canWrite = false ∧ s = OPEN then
        (transition s DRAINING).map fun s2 => (s2, false)
      else .ok (s, false)
    else .ok (s, false)

/-- Run a trace of events, counting emitted close notifications. -/
def run (s : ConnectionState) : List ConnEvent → Except String (ConnectionState × Nat)
  | [] => .ok (s, 0)
  | e :: es =>
    match step s e with
    | .error msg => .error msg
    | .ok (s2, b) =>
      match run s2 es with
      | .error msg => .error msg
      | .ok (s3, n) => .ok (s3, (if b then 1 else 0) + n)

/-! ## Connection.send (connection.ts lines 194-219) -/

/-- What socket.write does for one call: returns a canWrite boolean,
or throws (the throw is caught inside send). -/
inductive WriteBehavior where
  | accepted (canWrite : Bool)
  | throws
deriving DecidableEq

/-- The observable effects of one send() call: resulting state, how
much was added to bytesSent, whether the frame reached socket.write,
whether an exception escaped to the caller, and whether a (non-fatal)
transport error event was emitted. -/
structure SendOutcome where
  newState : ConnectionState
  bytesAdded : Nat
  wrote : Bool
  threw : Bool
  errorEvt : Bool
deriving DecidableEq

open ConnectionState in
/-- Connection.send: not OPEN/DRAINING means silently drop (return,
no effect); otherwise encode, count bytes, write, and transition
OPEN → DRAINING when the write reports a full buffer.  A throwing
write is caught: the error event is emitted and nothing escapes. -/
def sendImpl {J : Type} (codec : JsonCodec J) (s : ConnectionState)
    (type : Nat) (payload : Payload J) (wb : WriteBehavior) : SendOutcome :=
  if s ≠ OPEN ∧ s ≠ DRAINING then ⟨s, 0, false, false, false⟩
  else
    let buffer := encodeFrame codec type payload 0
    match wb with
    | .throws => ⟨s, buffer.length, false, false, true⟩
    | .accepted canWrite =>
      if canWrite = false ∧ s = OPEN then ⟨DRAINING, buffer.length, true, false, false⟩
      else ⟨s, buffer.length, true, false, false⟩

/-! ## Connection.parse (connection.ts lines 121-186)

The incremental parser: a while loop that force-closes when the
receive buffer exceeds MAX_FRAME_SIZE, extracts complete frames,
decodes the payload by flags (a JSON failure is a fatal protocol
error followed by close), and routes HEARTBEAT frames to the
heartbeat event instead of the frame event. -/

inductive ConnEvt (J : Type) where
  | errorEvt (fatal : Bool)
  | heartbeatEvt
  | frameEvt (p : ParsedFrame J)
deriving DecidableEq

structure ParseOut (J : Type) where
  events : List (ConnEvt J)
  buf : List Nat
  closeCalled : Bool
  crashed : Bool
deriving DecidableEq

/-- The payload decode inside the try block of Connection.parse
(lines 144-159): Option.none is the JSON.parse throw. -/
def decodePayloadConn {J : Type} (codec : JsonCodec J) (flags : Nat)
    (pb : List Nat) : Option (DecodedPayload J) :=
  if 0 < pb.length then
    if flags &&& 1 ≠ 0 then (codec.parse pb).map .json
    else if flags &&& 2 ≠ 0 then some (.binary pb)
    else some (.binary pb)
  else some .null

def parseLoop {J : Type} (codec : JsonCodec J) : Nat → List Nat → ParseOut J
  | 0, buf => ⟨[], buf, false, false⟩
  | fuel + 1, buf =>
    if MAX_FRAME_SIZE < buf.length then ⟨[.errorEvt true], buf, true, false⟩
    else
      match extractFrame buf with
      | .needMore => ⟨[], buf, false, false⟩
      | .rangeError => ⟨[], buf, false, true⟩
      | .ok f rem =>
        match decodePayloadConn codec f.flags f.payload with
        | Option.none => ⟨[.errorEvt true], rem, true, false⟩
        | some pl =>
          let e := if f.type = HEARTBEAT then ConnEvt.heartbeatEvt
                   else ConnEvt.frameEvt ⟨f.version, f.type, f.flags, pl⟩
          let r := parseLoop codec fuel rem
          ⟨e :: r.events, r.buf, r.closeCalled, r.crashed⟩

/-- One invocation of Connection.parse on the current buffer. -/
def parseAll {J : Type} (codec : JsonCodec J) (buf : List Nat) : ParseOut J :=
  parseLoop codec (buf.length + 1) buf

/-- Connection receive-side state across data events: the receive
buffer plus sticky flags recording whether a fatal protocol error was
emitted and whether close() was called. -/
structure ConnSt where
  buf : List Nat
  errored : Bool
  closed : Bool
deriving DecidableEq

def hasFatalError {J : Type} (evts : List (ConnEvt J)) : Bool :=
  evts.any fun e => match e with
    | .errorEvt true => true
    | _ => false

/-- Connection.onData: append the chunk and run the parser. -/
def feedConn {J : Type} (codec : JsonCodec J) (st : ConnSt) (chunk : List Nat) : ConnSt :=
  let out := parseAll codec (st.buf ++ chunk)
  ⟨out.buf, st.errored || hasFatalError out.events, st.closed || out.closeCalled⟩

def runConn {J : Type} (codec : JsonCodec J) (chunks : List (List Nat)) : ConnSt :=
  chunks.foldl (feedConn codec) ⟨[], false, false⟩

/-! ## Server frame dispatch (apps/server/src/server.ts) -/

/-- Which handler RelayServer.handleFrame invokes for a frame type. -/
inductive DispatchAction where
  | invokeHello
  | invokeJoinRoom
  | invokeLeaveRoom
  | invokeMessage
  | nothing
  | warnUnknownType
deriving DecidableEq

/-- RelayServer.handleFrame (lines 116-158), as the invoked action
plus two effect booleans: does this case send an ERROR frame to the
peer, and does it close the connection.  The HEARTBEAT case is the
bare break; the default case warns and sends an ERROR frame but never
closes. -/
def handleFrameEffect (type : Nat) : DispatchAction × Bool × Bool :=
  if type = 1 then (.invokeHello, false, false)
  else if type = 2 then (.invokeJoinRoom, false, false)
  else if type = 3 then (.invokeLeaveRoom, false, false)
  else if type = 4 then (.invokeMessage, false, false)
  else if type = 5 then (.nothing, false, false)
  else (.warnUnknownType, true, false)

/-- The server's reaction to a connection 'error' event (server.ts
lines 89-91): it only logs.  Recorded as the pair (sends an ERROR
frame, closes the connection). -/
def serverOnErrorEffect : Bool × Bool := (false, false)

/-! ## Rooms (rooms/room.ts and rooms/roomManager.ts)

JS Maps are modelled as association lists keyed by strings, with the
Map update discipline: `set` replaces the value at an existing key in
place and appends new keys, `delete` removes the key's entry.  A Room
is its ordered list of member connection ids; a Set of room names is
an ordered list without duplicates. -/

def lookupA {α : Type} (k : String) : List (String × α) → Option α
  | [] => Option.none
  | (k2, v) :: t => if k2 = k then some v else lookupA k t

def setA {α : Type} (k : String) (v : α) : List (String × α) → List (String × α)
  | [] => [(k, v)]
  | (k2, v2) :: t => if k2 = k then (k, v) :: t else (k2, v2) :: setA k v t

def eraseA {α : Type} (k : String) : List (String × α) → List (String × α)
  | [] => []
  | (k2, v) :: t => if k2 = k then t else (k2, v) :: eraseA k t

/-- JS Map.delete / Set.delete of one element from an ordered list. -/
def setDelete (x : String) : List String → List String
  | [] => []
  | y :: t => if y = x then t else y :: setDelete x t

/-- Room.join (room.ts lines 20-36): no-op when already a member,
else insert.  (The join notification broadcast does not change
membership.) -/
def roomJoin (members : List String) (c : String) : List String :=
  if c ∈ members then members else members ++ [c]

/-- Room.leave (room.ts lines 41-53): no-op when not a member, else
delete. -/
def roomLeave (members : List String) (c : String) : List String :=
  if c ∈ members then setDelete c members else members

/-- RoomManager state: room name → members, and the reverse index
connection id → set of room names. -/
structure RoomManager where
  rooms : List (String × List String)
  connectionRooms : List (String × List String)
deriving DecidableEq

/-- RoomManager.joinRoom (roomManager.ts lines 19-35): get-or-create
the room, add the connection to it, and record the room in the
connection's reverse index. -/
def joinRoom (st : RoomManager) (c roomName : String) : RoomManager :=
  let members := (lookupA roomName st.rooms).getD []
  let members2 := roomJoin members c
  let connSet := (lookupA c st.connectionRooms).getD []
  let connSet2 := if roomName ∈ connSet then connSet else connSet ++ [roomName]
  ⟨setA roomName members2 st.rooms, setA c connSet2 st.connectionRooms⟩

/-- RoomManager.leaveRoom (roomManager.ts lines 40-59): no-op when
the room does not exist; otherwise remove the member, update the
reverse index (dropping the connection's entry when its set becomes
empty), and delete the room when its membership becomes empty. -/
def leaveRoom (st : RoomManager) (c roomName : String) : RoomManager :=
  match lookupA roomName st.rooms with
  | Option.none => st
  | some members =>
    let members2 := roomLeave members c
    let rooms2 := setA roomName members2 st.rooms
    let connRooms2 := match lookupA c st.connectionRooms with
      | Option.none => st.connectionRooms
      | some s =>
        let s2 := setDelete roomName s
        if s2.length = 0 then eraseA c st.connectionRooms
        else setA c s2 st.connectionRooms
    if members2.length = 0 then ⟨eraseA roomName rooms2, connRooms2⟩
    else ⟨rooms2, connRooms2⟩

/-- RoomManager.getRoom. -/
def getRoom (st : RoomManager) (roomName : String) : Option (List String) :=
  lookupA roomName st.rooms

/-- Well-formedness of a RoomManager reachable state: unique keys in
both maps, no empty room retained, and the reverse index consistent
with actual memberships. -/
def WF (st : RoomManager) : Prop :=
  st.rooms.Pairwise (fun p q => p.1 ≠ q.1) ∧
  st.connectionRooms.Pairwise (fun p q => p.1 ≠ q.1) ∧
  (∀ p ∈ st.rooms, p.2 ≠ []) ∧
  (∀ p ∈ st.connectionRooms, p.2 ≠ [] ∧
    ∀ r ∈ p.2, ∃ m, lookupA r st.rooms = some m ∧ p.1 ∈ m)

instance (st : RoomManager) : Decidable (WF st) := by
  unfold WF; infer_instance

/-! ## Room.broadcast (room.ts lines 61-66)

The loop over current members, skipping the excluded id, calling
Connection.send on each.  Each member carries its connection state
and its socket's write behavior for this delivery. -/

structure Member where
  id : String
  state : ConnectionState
  wb : WriteBehavior
deriving DecidableEq

def broadcast {J : Type} (codec : JsonCodec J) (payload : Payload J)
    (excludeId : Option String) : List Member → List (String × SendOutcome)
  | [] => []
  | m :: rest =>
    if excludeId = some m.id then broadcast codec payload excludeId rest
    else (m.id, sendImpl codec m.state 4 payload m.wb) ::
      broadcast codec payload excludeId rest

/-! ## Validity of encoder inputs, and the expected decode result -/

/-- The decoded payload a faithful round trip should produce for each
encoder payload. -/
def decodedOf {J : Type} : Payload J → DecodedPayload J
  | .none => .null
  | .binary bs => .binary bs
  | .json j => .json j

/-- A valid (payload, flags) pair for the encoder: a binary payload
is a nonempty byte sequence (an empty one decodes as absent) whose
caller-supplied flags do not claim the UTF8_JSON encoding. -/
def PayloadOk {J : Type} : Payload J → Nat → Prop
  | .none, _ => True
  | .binary bs, flags => bs ≠ [] ∧ (∀ b ∈ bs, b < 256) ∧ flags &&& FLAG_UTF8_JSON = 0
  | .json _, _ => True

instance {J : Type} (p : Payload J) (f : Nat) : Decidable (PayloadOk p f) := by
  cases p <;> unfold PayloadOk <;> infer_instance

/-! # Theorems -/

/-! ## Byte-level helper lemmas -/

lemma readUInt32BE_writeUInt32BE (n : Nat) (rest : List Nat) (h : n < 2 ^ 32) :
    readUInt32BE (writeUInt32BE n ++ rest) = n := by
  simp only [readUInt32BE, writeUInt32BE, List.cons_append, List.nil_append,
    List.getD_cons_zero, List.getD_cons_succ]
  omega

lemma getD_take_of_lt (l : List Nat) (n i : Nat) (h : i < n) :
    (l.take n).getD i 0 = l.getD i 0 := by
  induction l generalizing n i with
  | nil => simp
  | cons a t ih =>
    cases n with
    | zero => omega
    | succ n =>
      cases i with
      | zero => simp
      | succ i =>
        simp only [List.take_succ_cons, List.getD_cons_succ]
        exact ih n i (by omega)

lemma readUInt32BE_take (l : List Nat) (n : Nat) (h : 4 ≤ n) :
    readUInt32BE (l.take n) = readUInt32BE l := by
  unfold readUInt32BE
  rw [getD_take_of_lt l n 0 (by omega), getD_take_of_lt l n 1 (by omega),
    getD_take_of_lt l n 2 (by omega), getD_take_of_lt l n 3 (by omega)]

lemma flags_json_bit (flags : Nat) (h : flags < 8) :
    (flags ||| FLAG_UTF8_JSON) &&& FLAG_UTF8_JSON ≠ 0 := by
  interval_cases flags <;> decide

lemma flags_binary_no_json_bit (flags : Nat) (h : flags < 8)
    (h1 : flags &&& FLAG_UTF8_JSON = 0) :
    (flags ||| FLAG_BINARY) &&& FLAG_UTF8_JSON = 0 := by
  interval_cases flags <;> first | decide | exact absurd h1 (by decide)

lemma encodeFrame_def {J : Type} (codec : JsonCodec J) (type : Nat)
    (payload : Payload J) (flags : Nat) :
    encodeFrame codec type payload flags =
      writeUInt32BE (3 + (payloadBuffer codec payload).length) ++
        1 :: type :: computedFlags flags payload :: payloadBuffer codec payload := rfl

lemma encodeFrame_length {J : Type} (codec : JsonCodec J) (type : Nat)
    (payload : Payload J) (flags : Nat) :
    (encodeFrame codec type payload flags).length =
      4 + (3 + (payloadBuffer codec payload).length) := by
  rw [encodeFrame_def]
  simp [writeUInt32BE]
  omega

lemma encodeFrame_drop4 {J : Type} (codec : JsonCodec J) (type : Nat)
    (payload : Payload J) (flags : Nat) :
    (encodeFrame codec type payload flags).drop 4 =
      1 :: type :: computedFlags flags payload :: payloadBuffer codec payload := by
  rw [encodeFrame_def]
  rfl

/-! ## C1: encode/decode round trip -/

/-- C1 (amended): for every valid message type, flags value with the
reserved bits 3-7 clear, and payload that is either absent, a
JSON-serializable value, or a nonempty byte sequence whose
caller-supplied flags do not claim UTF8_JSON, decoding the encoded
frame (its bytes after the 4-byte length prefix) yields version 1,
the same type, the caller flags joined with the auto-detected
encoding bit, and the same payload.  (An empty binary payload decodes
as absent, and a UTF8_JSON-claiming flag on a binary payload reroutes
it through the JSON decoder — those are the counterexamples that
force the payload restriction.) -/
theorem frame_roundtrip {J : Type} (codec : JsonCodec J) (type : Nat)
    (payload : Payload J) (flags : Nat) (htype : type < 256) (hflags : flags < 8)
    (hok : PayloadOk payload flags) :
    decodeFrame codec ((encodeFrame codec type payload flags).drop 4) =
      .ok ⟨PROTOCOL_VERSION, type, computedFlags flags payload, decodedOf payload⟩ := by
  rw [encodeFrame_drop4]
  cases payload with
  | none =>
    simp [decodeFrame, payloadBuffer, computedFlags, decodedOf, PROTOCOL_VERSION,
      HEADER_SIZE]
  | json j =>
    have hne : (codec.stringify j).length ≠ 0 := by
      simpa using codec.stringify_ne_nil j
    have hbit := flags_json_bit flags hflags
    simp only [payloadBuffer, computedFlags, decodedOf, decodeFrame, HEADER_SIZE,
      List.length_cons, List.getD_cons_zero, List.getD_cons_succ, List.drop_succ_cons,
      List.drop_zero]
    rw [if_neg (by omega), if_pos (by omega), if_pos hbit, codec.parse_stringify j]
    rfl
  | binary bs =>
    obtain ⟨hne, hlt, hbit0⟩ := hok
    have hne2 : bs.length ≠ 0 := by simpa using hne
    have hbit := flags_binary_no_json_bit flags hflags hbit0
    simp only [payloadBuffer, computedFlags, decodedOf, decodeFrame, HEADER_SIZE,
      List.length_cons, List.getD_cons_zero, List.getD_cons_succ, List.drop_succ_cons,
      List.drop_zero]
    rw [if_neg (by omega), if_pos (by omega), if_neg (by simpa using hbit)]
    split <;> rfl

/-- Witness for C1 (amended): a nonempty binary payload round-trips,
picking up the BINARY flag bit. -/
theorem frame_roundtrip_witness :
    decodeFrame unitCodec ((encodeFrame unitCodec 4 (Payload.binary [7]) 0).drop 4) =
      .ok ⟨PROTOCOL_VERSION, 4, computedFlags 0 (Payload.binary [7] : Payload Unit),
        decodedOf (Payload.binary [7] : Payload Unit)⟩ :=
  frame_roundtrip unitCodec 4 (Payload.binary [7]) 0 (by decide) (by decide) (by decide)

/-- Counterexample for C1 as stated: the empty Buffer is a valid
payload, but its encoding decodes to the absent payload (null), not
to an empty byte sequence — the round trip fails there. -/
theorem frame_roundtrip_counterexample :
    decodeFrame unitCodec ((encodeFrame unitCodec 1 (Payload.binary []) 0).drop 4) =
      .ok ⟨1, 1, 2, DecodedPayload.null⟩ ∧
    (DecodedPayload.null : DecodedPayload Unit) ≠ DecodedPayload.binary [] := by
  decide

/-! ## C2: extractor lemmas and fragmentation invariance -/

lemma extractFrame_exact (L : Nat) (u rest : List Nat) (hL : L < 2 ^ 32)
    (hu : u.length = L) (h3 : 3 ≤ L) :
    extractFrame (writeUInt32BE L ++ (u ++ rest)) =
      .ok ⟨L, u.getD 0 0, u.getD 1 0, u.getD 2 0, u.drop 3⟩ rest := by
  have hwlen : (writeUInt32BE L).length = 4 := rfl
  have hread : readUInt32BE (writeUInt32BE L ++ (u ++ rest)) = L :=
    readUInt32BE_writeUInt32BE L _ hL
  have hblen : (writeUInt32BE L ++ (u ++ rest)).length = 4 + (L + rest.length) := by
    simp [List.length_append, hwlen, hu]
  have hdrop4 : (writeUInt32BE L ++ (u ++ rest)).drop 4 = u ++ rest := by
    rw [show (4 : Nat) = (writeUInt32BE L).length from rfl, List.drop_left]
  have htake : (u ++ rest).take L = u := by
    rw [← hu, List.take_left]
  have hdropTot : (writeUInt32BE L ++ (u ++ rest)).drop (4 + L) = rest := by
    rw [← List.append_assoc,
      show 4 + L = (writeUInt32BE L ++ u).length from by simp [hwlen, hu],
      List.drop_left]
  simp only [extractFrame, hread, hblen, hdrop4, htake, hdropTot, hu]
  rw [if_neg (by omega), if_neg (by omega), if_neg (by omega)]

lemma extractFrame_encode {J : Type} (codec : JsonCodec J) (type : Nat)
    (payload : Payload J) (flags : Nat) (rest : List Nat)
    (hlen : 3 + (payloadBuffer codec payload).length < 2 ^ 32) :
    extractFrame (encodeFrame codec type payload flags ++ rest) =
      .ok ⟨3 + (payloadBuffer codec payload).length, 1, type,
           computedFlags flags payload, payloadBuffer codec payload⟩ rest := by
  have h := extractFrame_exact (3 + (payloadBuffer codec payload).length)
    (1 :: type :: computedFlags flags payload :: payloadBuffer codec payload) rest hlen
    (by simp; omega) (by omega)
  rw [encodeFrame_def, List.append_assoc]
  simpa using h

lemma extractFrame_encode_take {J : Type} (codec : JsonCodec J) (type : Nat)
    (payload : Payload J) (flags : Nat) (k : Nat)
    (hlen : 3 + (payloadBuffer codec payload).length < 2 ^ 32)
    (hk : k < (encodeFrame codec type payload flags).length) :
    extractFrame ((encodeFrame codec type payload flags).take k) = .needMore := by
  have hblen := encodeFrame_length codec type payload flags
  have htk : ((encodeFrame codec type payload flags).take k).length = k := by
    simp [List.length_take]
    omega
  by_cases h4 : k < 4
  · simp only [extractFrame, htk]
    rw [if_pos h4]
  · have hread : readUInt32BE ((encodeFrame codec type payload flags).take k) =
        3 + (payloadBuffer codec payload).length := by
      rw [readUInt32BE_take _ k (by omega), encodeFrame_def]
      exact readUInt32BE_writeUInt32BE _ _ hlen
    simp only [extractFrame, htk, hread]
    rw [if_neg (by omega), if_pos (by omega)]

lemma drainLoop_nil (fuel : Nat) : drainLoop fuel [] = some ([], []) := by
  cases fuel with
  | zero => rfl
  | succ f => rfl

lemma drainLoop_encode {J : Type} (codec : JsonCodec J) (type : Nat)
    (payload : Payload J) (flags : Nat) (fuel : Nat) (hfuel : 2 ≤ fuel)
    (hlen : 3 + (payloadBuffer codec payload).length < 2 ^ 32) :
    drainLoop fuel (encodeFrame codec type payload flags) =
      some ([⟨3 + (payloadBuffer codec payload).length, 1, type,
             computedFlags flags payload, payloadBuffer codec payload⟩], []) := by
  obtain ⟨f, rfl⟩ : ∃ f, fuel = f + 2 := ⟨fuel - 2, by omega⟩
  have hx : extractFrame (encodeFrame codec type payload flags) =
      .ok ⟨3 + (payloadBuffer codec payload).length, 1, type,
           computedFlags flags payload, payloadBuffer codec payload⟩ [] := by
    have h := extractFrame_encode codec type payload flags [] hlen
    simpa using h
  show drainLoop (f + 1 + 1) _ = _
  rw [drainLoop, hx]
  simp [drainLoop_nil]

lemma drainLoop_encode_take {J : Type} (codec : JsonCodec J) (type : Nat)
    (payload : Payload J) (flags : Nat) (k fuel : Nat)
    (hlen : 3 + (payloadBuffer codec payload).length < 2 ^ 32)
    (hk : k < (encodeFrame codec type payload flags).length) :
    drainLoop fuel ((encodeFrame codec type payload flags).take k) =
      some ([], (encodeFrame codec type payload flags).take k) := by
  cases fuel with
  | zero => rfl
  | succ f => rw [drainLoop, extractFrame_encode_take codec type payload flags k hlen hk]

lemma feedChunksAux_empty_chunks :
    ∀ cs : List (List Nat), cs.flatten = [] → ∀ acc : List Frame,
      feedChunksAux acc [] cs = some (acc, []) := by
  intro cs
  induction cs with
  | nil => intro _ acc; rfl
  | cons c cs ih =>
    intro h acc
    obtain ⟨rfl, hcs⟩ : c = [] ∧ cs.flatten = [] := by
      rw [List.flatten_cons] at h
      exact List.append_eq_nil.mp h
    rw [feedChunksAux]
    show (match drainLoop ((([] : List Nat) ++ []).length + 1) ([] ++ []) with
      | Option.none => Option.none
      | some (fs, b) => feedChunksAux (acc ++ fs) b cs) = some (acc, [])
    simp only [List.append_nil, drainLoop_nil]
    exact ih hcs acc

lemma feedChunksAux_encode {J : Type} (codec : JsonCodec J) (type : Nat)
    (payload : Payload J) (flags : Nat)
    (hlen : 3 + (payloadBuffer codec payload).length < 2 ^ 32) :
    ∀ (cs : List (List Nat)) (k : Nat) (acc : List Frame),
      (encodeFrame codec type payload flags).take k ++ cs.flatten =
        encodeFrame codec type payload flags →
      k < (encodeFrame codec type payload flags).length →
      feedChunksAux acc ((encodeFrame codec type payload flags).take k) cs =
        some (acc ++ [⟨3 + (payloadBuffer codec payload).length, 1, type,
               computedFlags flags payload, payloadBuffer codec payload⟩], []) := by
  intro cs
  induction cs with
  | nil =>
    intro k acc hjoin hk
    exfalso
    rw [List.flatten_nil, List.append_nil] at hjoin
    have := congrArg List.length hjoin
    simp [List.length_take] at this
    omega
  | cons c cs ih =>
    intro k acc hjoin hk
    have hflat : (encodeFrame codec type payload flags).take k ++
        (c ++ cs.flatten) = encodeFrame codec type payload flags := by
      rw [List.flatten_cons] at hjoin
      exact hjoin
    have hklen : ((encodeFrame codec type payload flags).take k).length = k := by
      simp [List.length_take]
      omega
    have hk2 : k + c.length ≤ (encodeFrame codec type payload flags).length := by
      have h := congrArg List.length hflat
      simp only [List.length_append, hklen] at h
      omega
    have htake2 : (encodeFrame codec type payload flags).take k ++ c =
        (encodeFrame codec type payload flags).take (k + c.length) := by
      conv_rhs => rw [← hflat]
      rw [List.take_append_eq_append_take, List.take_take,
        min_eq_right (by omega : k ≤ k + c.length), hklen,
        Nat.add_sub_cancel_left, List.take_append_eq_append_take,
        Nat.sub_self, List.take_zero, List.append_nil, List.take_length]
    rcases Nat.lt_or_ge (k + c.length) (encodeFrame codec type payload flags).length
      with hlt | hge
    · rw [feedChunksAux, htake2,
        drainLoop_encode_take codec type payload flags (k + c.length) _ hlen hlt]
      show feedChunksAux (acc ++ []) _ cs = _
      rw [List.append_nil]
      refine ih (k + c.length) acc ?_ hlt
      rw [← htake2, List.append_assoc]
      exact hflat
    · have hkeq : k + c.length = (encodeFrame codec type payload flags).length :=
        le_antisymm hk2 hge
      have htfull : (encodeFrame codec type payload flags).take (k + c.length) =
          encodeFrame codec type payload flags := by
        rw [hkeq, List.take_length]
      have hflcs : cs.flatten = [] := by
        have h1 : encodeFrame codec type payload flags ++ cs.flatten =
            encodeFrame codec type payload flags := by
          rw [← List.append_assoc, htake2, htfull] at hflat
          exact hflat
        exact List.append_right_eq_self.mp h1
      rw [feedChunksAux, htake2, htfull,
        drainLoop_encode codec type payload flags _ (by
          rw [encodeFrame_length]; omega) hlen]
      exact feedChunksAux_empty_chunks cs hflcs _

/-- C2: for every encoded frame, feeding its bytes to the extractor
loop split into chunks at arbitrary byte boundaries (including one
byte at a time) extracts exactly one frame — bit-identical to the one
extracted from the whole buffer, with an empty residual buffer;
moreover the extractor returns need-more-data on exactly the buffers
holding fewer than `4 + frameLength` bytes, and on a complete buffer
consumes exactly `4 + frameLength` bytes, returning the rest as the
remaining buffer. -/
theorem extractor_fragmentation_invariance {J : Type} (codec : JsonCodec J)
    (type : Nat) (payload : Payload J) (flags : Nat)
    (hlen : 3 + (payloadBuffer codec payload).length < 2 ^ 32) :
    (∀ chunks : List (List Nat),
      chunks.flatten = encodeFrame codec type payload flags →
      feedChunks chunks =
        some ([⟨3 + (payloadBuffer codec payload).length, 1, type,
               computedFlags flags payload, payloadBuffer codec payload⟩], [])) ∧
    (∀ k, k < (encodeFrame codec type payload flags).length →
      extractFrame ((encodeFrame codec type payload flags).take k) = .needMore) ∧
    (∀ rest, extractFrame (encodeFrame codec type payload flags ++ rest) =
      .ok ⟨3 + (payloadBuffer codec payload).length, 1, type,
           computedFlags flags payload, payloadBuffer codec payload⟩ rest) := by
  refine ⟨?_, fun k hk => extractFrame_encode_take codec type payload flags k hlen hk,
    fun rest => extractFrame_encode codec type payload flags rest hlen⟩
  intro chunks hchunks
  have h := feedChunksAux_encode codec type payload flags hlen chunks 0 []
    (by simpa [List.take_zero] using hchunks)
    (by rw [encodeFrame_length]; omega)
  simpa [feedChunks, List.take_zero] using h

/-- Witness for C2: the empty-payload HELLO frame fed one byte at a
time yields its single frame and an empty residual buffer. -/
theorem extractor_fragmentation_invariance_witness :
    feedChunks [[0], [0], [0], [3], [1], [1], [0]] =
      some ([⟨3 + (payloadBuffer unitCodec (Payload.none : Payload Unit)).length, 1, 1,
             computedFlags 0 (Payload.none : Payload Unit),
             payloadBuffer unitCodec (Payload.none : Payload Unit)⟩], []) :=
  (extractor_fragmentation_invariance unitCodec 1 Payload.none 0 (by decide)).1
    [[0], [0], [0], [3], [1], [1], [0]] (by decide)

/-! ## C10: heartbeat routing in Connection.parse -/

lemma parseLoop_empty {J : Type} (codec : JsonCodec J) (fuel : Nat) :
    parseLoop codec fuel [] = ⟨[], [], false, false⟩ := by
  cases fuel with
  | zero => rfl
  | succ f => rfl

lemma decodePayloadConn_valid {J : Type} (codec : JsonCodec J) (payload : Payload J)
    (flags : Nat) (hflags : flags < 8) (hok : PayloadOk payload flags) :
    decodePayloadConn codec (computedFlags flags payload) (payloadBuffer codec payload) =
      some (decodedOf payload) := by
  cases payload with
  | none => simp [decodePayloadConn, payloadBuffer, computedFlags, decodedOf]
  | json j =>
    have hne : (codec.stringify j).length ≠ 0 := by
      simpa using codec.stringify_ne_nil j
    have hbit := flags_json_bit flags hflags
    simp only [decodePayloadConn, payloadBuffer, computedFlags, decodedOf,
      FLAG_UTF8_JSON] at hbit ⊢
    rw [if_pos (by omega), if_pos hbit, codec.parse_stringify]
    rfl
  | binary bs =>
    obtain ⟨hne, hlt, hbit0⟩ := hok
    have hne2 : bs.length ≠ 0 := by simpa using hne
    have hbit := flags_binary_no_json_bit flags hflags hbit0
    simp only [decodePayloadConn, payloadBuffer, computedFlags, decodedOf,
      FLAG_UTF8_JSON, FLAG_BINARY] at hbit ⊢
    rw [if_pos (by omega), if_neg (by simpa [FLAG_UTF8_JSON, Nat.and_one_is_mod] using hbit0)]
    split <;> rfl

/-- C10: Connection.parse never emits a 'frame' event for a decoded
HEARTBEAT (0x05) frame — it emits a 'heartbeat' event instead (and
records the heartbeat time carried on that event), so HEARTBEAT
frames never reach the dispatcher; every other frame whose payload
decodes is delivered as a 'frame' event. -/
theorem heartbeat_not_dispatched {J : Type} (codec : JsonCodec J) (type : Nat)
    (payload : Payload J) (flags : Nat) (hflags : flags < 8)
    (hok : PayloadOk payload flags)
    (hsize : (encodeFrame codec type payload flags).length ≤ MAX_FRAME_SIZE) :
    parseAll codec (encodeFrame codec type payload flags) =
      ⟨[if type = HEARTBEAT then ConnEvt.heartbeatEvt
        else ConnEvt.frameEvt ⟨1, type, computedFlags flags payload, decodedOf payload⟩],
       [], false, false⟩ := by
  have hel := encodeFrame_length codec type payload flags
  have hmax : MAX_FRAME_SIZE = 10485760 := rfl
  have hlen : 3 + (payloadBuffer codec payload).length < 2 ^ 32 := by omega
  have hx : extractFrame (encodeFrame codec type payload flags) =
      .ok ⟨3 + (payloadBuffer codec payload).length, 1, type,
           computedFlags flags payload, payloadBuffer codec payload⟩ [] := by
    simpa using extractFrame_encode codec type payload flags [] hlen
  have hdec := decodePayloadConn_valid codec payload flags hflags hok
  unfold parseAll
  rw [parseLoop, if_neg (by omega), hx]
  simp only [hdec, parseLoop_empty]

/-- Witness for C10: a HEARTBEAT frame with empty payload produces
exactly one heartbeat event and no frame event. -/
theorem heartbeat_not_dispatched_witness :
    parseAll unitCodec (encodeFrame unitCodec 5 Payload.none 0) =
      ⟨[ConnEvt.heartbeatEvt], [], false, false⟩ := by
  have h := heartbeat_not_dispatched unitCodec 5 Payload.none 0
    (by decide) (by decide) (by decide)
  simpa using h

/-! ## C9: an oversized declared frame length forces error and close -/

lemma take_chunk_eq (l : List Nat) (k : Nat) (c rest2 : List Nat) (hk : k ≤ l.length)
    (h : l.take k ++ (c ++ rest2) = l) :
    l.take k ++ c = l.take (k + c.length) := by
  have hklen : (l.take k).length = k := by
    simp [List.length_take]
    omega
  conv_rhs => rw [← h]
  rw [List.take_append_eq_append_take, List.take_take,
    min_eq_right (by omega : k ≤ k + c.length), hklen, Nat.add_sub_cancel_left,
    List.take_append_eq_append_take, Nat.sub_self, List.take_zero, List.append_nil,
    List.take_length]

lemma parseAll_oversized_small {J : Type} (codec : JsonCodec J) (L : Nat)
    (body : List Nat) (k : Nat) (hL : MAX_FRAME_SIZE < L) (hL32 : L < 2 ^ 32)
    (hbody : body.length = L) (hk : k ≤ MAX_FRAME_SIZE) (hkle : k ≤ 4 + L) :
    parseAll codec ((writeUInt32BE L ++ body).take k) =
      ⟨[], (writeUInt32BE L ++ body).take k, false, false⟩ := by
  have hslen : (writeUInt32BE L ++ body).length = 4 + L := by
    simp [writeUInt32BE, hbody]
    omega
  have htk : ((writeUInt32BE L ++ body).take k).length = k := by
    simp only [List.length_take]
    omega
  have hex : extractFrame ((writeUInt32BE L ++ body).take k) = .needMore := by
    by_cases h4 : k < 4
    · simp only [extractFrame, htk]
      rw [if_pos h4]
    · have hread : readUInt32BE ((writeUInt32BE L ++ body).take k) = L := by
        rw [readUInt32BE_take _ k (by omega)]
        exact readUInt32BE_writeUInt32BE L body hL32
      simp only [extractFrame, htk, hread]
      rw [if_neg (by omega), if_pos (by omega)]
  unfold parseAll
  rw [htk, parseLoop, if_neg (by omega), hex]

lemma parseAll_oversized_big {J : Type} (codec : JsonCodec J) (L : Nat)
    (body : List Nat) (k : Nat) (hL32 : L < 2 ^ 32)
    (hbody : body.length = L) (hk : MAX_FRAME_SIZE < k) (hkle : k ≤ 4 + L) :
    parseAll codec ((writeUInt32BE L ++ body).take k) =
      ⟨[ConnEvt.errorEvt true], (writeUInt32BE L ++ body).take k, true, false⟩ := by
  have hslen : (writeUInt32BE L ++ body).length = 4 + L := by
    simp [writeUInt32BE, hbody]
    omega
  have htk : ((writeUInt32BE L ++ body).take k).length = k := by
    simp only [List.length_take]
    omega
  unfold parseAll
  rw [htk, Relay.parseLoop, if_pos (by omega)]

lemma runConn_oversized_aux {J : Type} (codec : JsonCodec J) (L : Nat)
    (body : List Nat) (hL : MAX_FRAME_SIZE < L) (hL32 : L < 2 ^ 32)
    (hbody : body.length = L) :
    ∀ (cs : List (List Nat)) (k : Nat), k ≤ 4 + L →
      (writeUInt32BE L ++ body).take k ++ cs.flatten = writeUInt32BE L ++ body →
      List.foldl (feedConn codec)
        ⟨(writeUInt32BE L ++ body).take k, decide (MAX_FRAME_SIZE < k),
         decide (MAX_FRAME_SIZE < k)⟩ cs =
      ⟨writeUInt32BE L ++ body, true, true⟩ := by
  have hslen : (writeUInt32BE L ++ body).length = 4 + L := by
    simp [writeUInt32BE, hbody]
    omega
  intro cs
  induction cs with
  | nil =>
    intro k hkle hjoin
    rw [List.flatten_nil, List.append_nil] at hjoin
    have hlen2 := congrArg List.length hjoin
    simp only [List.length_take, hslen] at hlen2
    have hkeq : k = 4 + L := by omega
    subst hkeq
    rw [List.foldl_nil, hjoin]
    have hd : decide (MAX_FRAME_SIZE < 4 + L) = true := decide_eq_true (by omega)
    rw [hd]
  | cons c cs ih =>
    intro k hkle hjoin
    rw [List.flatten_cons] at hjoin
    have hk2le : k + c.length ≤ 4 + L := by
      have h := congrArg List.length hjoin
      simp only [List.length_append, List.length_take, hslen] at h
      omega
    have htake2 : (writeUInt32BE L ++ body).take k ++ c =
        (writeUInt32BE L ++ body).take (k + c.length) :=
      take_chunk_eq _ k c cs.flatten (by omega) hjoin
    have hjoin2 : (writeUInt32BE L ++ body).take (k + c.length) ++ cs.flatten =
        writeUInt32BE L ++ body := by
      rw [← htake2, List.append_assoc]
      exact hjoin
    rw [List.foldl_cons]
    rcases Nat.lt_or_ge MAX_FRAME_SIZE (k + c.length) with hbig | hsmall
    · have hout := parseAll_oversized_big codec L body (k + c.length) hL32 hbody hbig hk2le
      show List.foldl (feedConn codec) (feedConn codec _ c) cs = _
      rw [show feedConn codec
          ⟨(writeUInt32BE L ++ body).take k, decide (MAX_FRAME_SIZE < k),
           decide (MAX_FRAME_SIZE < k)⟩ c =
          ⟨(writeUInt32BE L ++ body).take (k + c.length),
           decide (MAX_FRAME_SIZE < (k + c.length)),
           decide (MAX_FRAME_SIZE < (k + c.length))⟩ from by
        unfold feedConn
        rw [htake2, hout]
        have hd : decide (MAX_FRAME_SIZE < (k + c.length)) = true :=
          decide_eq_true hbig
        simp [hasFatalError, hd]]
      exact ih (k + c.length) hk2le hjoin2
    · have hout := parseAll_oversized_small codec L body (k + c.length) hL hL32 hbody
        hsmall hk2le
      show List.foldl (feedConn codec) (feedConn codec _ c) cs = _
      rw [show feedConn codec
          ⟨(writeUInt32BE L ++ body).take k, decide (MAX_FRAME_SIZE < k),
           decide (MAX_FRAME_SIZE < k)⟩ c =
          ⟨(writeUInt32BE L ++ body).take (k + c.length),
           decide (MAX_FRAME_SIZE < (k + c.length)),
           decide (MAX_FRAME_SIZE < (k + c.length))⟩ from by
        unfold feedConn
        rw [htake2, hout]
        have hd1 : decide (MAX_FRAME_SIZE < k) = false :=
          decide_eq_false (by omega)
        have hd2 : decide (MAX_FRAME_SIZE < (k + c.length)) = false :=
          decide_eq_false (by omega)
        simp [hasFatalError, hd1, hd2]]
      exact ih (k + c.length) hk2le hjoin2

/-- C9: for any way of delivering, in chunks, a byte stream that is a
frame whose declared length field L exceeds MAX_FRAME_SIZE
(10,485,760) — the 4-byte big-endian length followed by its L payload
bytes — the connection's parser emits a fatal protocol error event
and calls close() instead of waiting for the frame to complete: the
receive buffer crosses the limit before the frame can ever be
extracted, so there is no parse hang. -/
theorem oversized_length_closes {J : Type} (codec : JsonCodec J) (L : Nat)
    (body : List Nat) (chunks : List (List Nat)) (hL : MAX_FRAME_SIZE < L)
    (hL32 : L < 2 ^ 32) (hbody : body.length = L)
    (hchunks : chunks.flatten = writeUInt32BE L ++ body) :
    runConn codec chunks = ⟨writeUInt32BE L ++ body, true, true⟩ := by
  have h0 : (⟨[], false, false⟩ : ConnSt) =
      ⟨(writeUInt32BE L ++ body).take 0, decide (MAX_FRAME_SIZE < 0),
       decide (MAX_FRAME_SIZE < 0)⟩ := by
    simp
  unfold runConn
  rw [h0]
  exact runConn_oversized_aux codec L body hL hL32 hbody chunks 0 (by omega)
    (by simpa using hchunks)

/-! ## C7: room lifecycle — lemmas on the association-list maps -/

lemma lookupA_setA_self {α : Type} (k : String) (v : α) (l : List (String × α)) :
    lookupA k (setA k v l) = some v := by
  induction l with
  | nil => simp [setA, lookupA]
  | cons p t ih =>
    by_cases h : p.1 = k
    · simp [setA, h, lookupA]
    · simp [setA, h, lookupA, ih]

lemma setA_of_lookupA {α : Type} (k : String) (v : α) (l : List (String × α))
    (h : lookupA k l = some v) : setA k v l = l := by
  induction l with
  | nil => simp [lookupA] at h
  | cons p t ih =>
    by_cases hk : p.1 = k
    · rw [lookupA, if_pos hk] at h
      rw [setA]
      show (if p.1 = k then (k, v) :: t else _) = _
      rw [if_pos hk]
      obtain ⟨k1, v1⟩ := p
      simp at hk h
      rw [hk, h]
    · rw [lookupA, if_neg hk] at h
      rw [setA]
      show (if p.1 = k then _ else p :: setA k v t) = _
      rw [if_neg hk, ih h]

lemma lookupA_setA_ne {α : Type} (k k2 : String) (v : α) (l : List (String × α))
    (h : k2 ≠ k) : lookupA k2 (setA k v l) = lookupA k2 l := by
  induction l with
  | nil =>
    simp only [setA, lookupA]
    rw [if_neg fun hc => h hc.symm]
  | cons p t ih =>
    by_cases hk : p.1 = k
    · rw [setA]
      show lookupA k2 (if p.1 = k then (k, v) :: t else _) = _
      rw [if_pos hk, lookupA, if_neg fun hc => h hc.symm, lookupA,
        if_neg (by rw [hk]; exact fun hc => h hc.symm)]
    · rw [setA]
      show lookupA k2 (if p.1 = k then _ else p :: setA k v t) = _
      rw [if_neg hk, lookupA, lookupA, ih]

lemma lookupA_mem {α : Type} (k : String) (v : α) (l : List (String × α))
    (h : lookupA k l = some v) : (k, v) ∈ l := by
  induction l with
  | nil => simp [lookupA] at h
  | cons p t ih =>
    by_cases hk : p.1 = k
    · rw [lookupA, if_pos hk] at h
      obtain ⟨k1, v1⟩ := p
      simp at hk h
      rw [← hk, ← h]
      exact List.mem_cons_self _ _
    · rw [lookupA, if_neg hk] at h
      exact List.mem_cons_of_mem _ (ih h)

lemma lookupA_eq_none {α : Type} (k : String) (l : List (String × α))
    (h : ∀ p ∈ l, p.1 ≠ k) : lookupA k l = Option.none := by
  induction l with
  | nil => rfl
  | cons p t ih =>
    rw [lookupA, if_neg (h p (List.mem_cons_self _ _))]
    exact ih fun q hq => h q (List.mem_cons_of_mem _ hq)

lemma lookupA_eraseA_self {α : Type} (k : String) (l : List (String × α))
    (hl : l.Pairwise (fun p q => p.1 ≠ q.1)) : lookupA k (eraseA k l) = Option.none := by
  induction l with
  | nil => rfl
  | cons p t ih =>
    rw [List.pairwise_cons] at hl
    by_cases hk : p.1 = k
    · rw [eraseA]
      show lookupA k (if p.1 = k then t else _) = _
      rw [if_pos hk]
      exact lookupA_eq_none k t fun q hq => hk ▸ (hl.1 q hq).symm
    · rw [eraseA]
      show lookupA k (if p.1 = k then _ else p :: eraseA k t) = _
      rw [if_neg hk, lookupA, if_neg hk]
      exact ih hl.2

lemma lookupA_eraseA_ne {α : Type} (k k2 : String) (l : List (String × α))
    (h : k2 ≠ k) : lookupA k2 (eraseA k l) = lookupA k2 l := by
  induction l with
  | nil => rfl
  | cons p t ih =>
    by_cases hk : p.1 = k
    · rw [eraseA]
      show lookupA k2 (if p.1 = k then t else _) = _
      rw [if_pos hk, lookupA, if_neg (by rw [hk]; exact fun hc => h hc.symm)]
    · rw [eraseA]
      show lookupA k2 (if p.1 = k then _ else p :: eraseA k t) = _
      rw [if_neg hk, lookupA, lookupA, ih]

lemma mem_setA {α : Type} (k : String) (v : α) (l : List (String × α)) (p : String × α)
    (h : p ∈ setA k v l) : p.1 = k ∨ p ∈ l := by
  induction l with
  | nil =>
    rw [setA] at h
    rcases List.mem_singleton.mp h with rfl
    exact Or.inl rfl
  | cons q t ih =>
    by_cases hk : q.1 = k
    · rw [setA] at h
      rw [if_pos hk] at h
      rcases List.mem_cons.mp h with rfl | hmem
      · exact Or.inl rfl
      · exact Or.inr (List.mem_cons_of_mem _ hmem)
    · rw [setA] at h
      rw [if_neg hk] at h
      rcases List.mem_cons.mp h with rfl | hmem
      · exact Or.inr (List.mem_cons_self _ _)
      · rcases ih hmem with h1 | h1
        · exact Or.inl h1
        · exact Or.inr (List.mem_cons_of_mem _ h1)

lemma pairwise_keys_setA {α : Type} (k : String) (v : α) (l : List (String × α))
    (hl : l.Pairwise (fun p q => p.1 ≠ q.1)) :
    (setA k v l).Pairwise (fun p q => p.1 ≠ q.1) := by
  induction l with
  | nil => simp [setA]
  | cons q t ih =>
    rw [List.pairwise_cons] at hl
    by_cases hk : q.1 = k
    · rw [setA]
      show ((if q.1 = k then (k, v) :: t else _)).Pairwise _
      rw [if_pos hk]
      exact List.pairwise_cons.mpr ⟨fun p hp => hk ▸ hl.1 p hp, hl.2⟩
    · rw [setA]
      show ((if q.1 = k then _ else q :: setA k v t)).Pairwise _
      rw [if_neg hk]
      refine List.pairwise_cons.mpr ⟨fun p hp => ?_, ih hl.2⟩
      rcases mem_setA k v t p hp with h1 | h1
      · rw [h1]
        exact hk
      · exact hl.1 p h1

lemma setDelete_of_not_mem (x : String) (l : List String) (h : x ∉ l) :
    setDelete x l = l := by
  induction l with
  | nil => rfl
  | cons y t ih =>
    rw [setDelete, if_neg (by rintro rfl; exact h (List.mem_cons_self _ _)),
      ih fun hc => h (List.mem_cons_of_mem _ hc)]

lemma mem_roomJoin (m : List String) (c : String) : c ∈ roomJoin m c := by
  unfold roomJoin
  split
  · assumption
  · exact List.mem_append_right _ (List.mem_cons_self _ _)

lemma roomJoin_of_mem (m : List String) (c : String) (h : c ∈ m) :
    roomJoin m c = m := by
  rw [roomJoin, if_pos h]

/-- C7: room lifecycle in the RoomManager, from any well-formed
state.  Joining a room twice with the same connection is the same as
joining once (so the membership count stays 1 when the room was
fresh: the second conjunct shows a join into an absent room yields
exactly the one-member room); when the last member leaves, the room
is deleted synchronously (getRoom returns absent); leaving a room the
connection never joined is a no-op returning the state unchanged, not
an error; and neither join nor leave ever retains an empty room. -/
theorem room_lifecycle (st : RoomManager) (c r : String) (hwf : WF st) :
    (joinRoom (joinRoom st c r) c r = joinRoom st c r) ∧
    (getRoom st r = Option.none → getRoom (joinRoom st c r) r = some [c]) ∧
    (getRoom st r = some [c] → getRoom (leaveRoom st c r) r = Option.none) ∧
    ((∀ m, getRoom st r = some m → c ∉ m) → leaveRoom st c r = st) ∧
    (∀ r2 m2, getRoom (joinRoom st c r) r2 = some m2 → m2 ≠ []) ∧
    (∀ r2 m2, getRoom (leaveRoom st c r) r2 = some m2 → m2 ≠ []) := by
  obtain ⟨hpr, hpc, hner, hcr⟩ := hwf
  refine ⟨?_, ?_, ?_, ?_, ?_, ?_⟩
  · -- join twice = join once
    have hr1 : (joinRoom st c r).rooms =
        setA r (roomJoin ((lookupA r st.rooms).getD []) c) st.rooms := rfl
    have hc1 : (joinRoom st c r).connectionRooms =
        setA c (if r ∈ (lookupA c st.connectionRooms).getD []
                then (lookupA c st.connectionRooms).getD []
                else (lookupA c st.connectionRooms).getD [] ++ [r])
          st.connectionRooms := rfl
    have hlr : lookupA r (joinRoom st c r).rooms =
        some (roomJoin ((lookupA r st.rooms).getD []) c) := by
      rw [hr1]
      exact lookupA_setA_self ..
    have hlc : lookupA c (joinRoom st c r).connectionRooms =
        some (if r ∈ (lookupA c st.connectionRooms).getD []
              then (lookupA c st.connectionRooms).getD []
              else (lookupA c st.connectionRooms).getD [] ++ [r]) := by
      rw [hc1]
      exact lookupA_setA_self ..
    conv_lhs => rw [joinRoom]
    simp only [hlr, hlc, Option.getD_some]
    rw [roomJoin_of_mem _ c (mem_roomJoin _ c),
      if_pos (by split <;>
        [assumption; exact List.mem_append_right _ (List.mem_cons_self _ _)]),
      setA_of_lookupA _ _ _ hlr, setA_of_lookupA _ _ _ hlc]
  · -- join into an absent room gives the singleton room
    intro h
    rw [getRoom] at h
    simp only [getRoom, joinRoom, h, Option.getD_none,
      show roomJoin [] c = [c] from by simp [roomJoin]]
    exact lookupA_setA_self r [c] st.rooms
  · -- last member leaving deletes the room
    intro h
    rw [getRoom] at h
    simp only [getRoom, leaveRoom, h,
      show roomLeave [c] c = [] from by simp [roomLeave, setDelete],
      List.length_nil, if_pos rfl]
    exact lookupA_eraseA_self r _ (pairwise_keys_setA r [] st.rooms hpr)
  · -- leaving a never-joined room is a no-op
    intro h
    cases hlook : lookupA r st.rooms with
    | none => simp only [leaveRoom, hlook]
    | some members =>
      simp only [leaveRoom, hlook]
      have hcm : c ∉ members := h members (by rw [getRoom, hlook])
      have hmne : members ≠ [] := hner _ (lookupA_mem r members st.rooms hlook)
      rw [show roomLeave members c = members from by rw [roomLeave, if_neg hcm]]
      rw [setA_of_lookupA _ _ _ hlook]
      have hconn : (match lookupA c st.connectionRooms with
          | Option.none => st.connectionRooms
          | some s =>
            if (setDelete r s).length = 0 then eraseA c st.connectionRooms
            else setA c (setDelete r s) st.connectionRooms) = st.connectionRooms := by
        cases hcl : lookupA c st.connectionRooms with
        | none => rfl
        | some s =>
          show (if (setDelete r s).length = 0 then eraseA c st.connectionRooms
            else setA c (setDelete r s) st.connectionRooms) = st.connectionRooms
          obtain ⟨hsne, hsc⟩ := hcr _ (lookupA_mem c s st.connectionRooms hcl)
          have hrs : r ∉ s := by
            intro hr
            obtain ⟨m2, hm2, hcm2⟩ := hsc r hr
            rw [hlook] at hm2
            exact hcm (by injection hm2 with h2; rw [← h2] at hcm2; exact hcm2)
          rw [setDelete_of_not_mem r s hrs,
            if_neg (by simpa using hsne), setA_of_lookupA _ _ _ hcl]
      rw [hconn, if_neg (by simpa using hmne)]
  · -- join never retains an empty room
    intro r2 m2 h
    simp only [getRoom, joinRoom] at h
    by_cases hr : r2 = r
    · rw [hr, lookupA_setA_self] at h
      injection h with h2
      rw [← h2]
      exact List.ne_nil_of_mem (mem_roomJoin _ c)
    · rw [lookupA_setA_ne r r2 _ _ hr] at h
      exact hner _ (lookupA_mem r2 m2 st.rooms h)
  · -- leave never retains an empty room
    intro r2 m2 h
    cases hlook : lookupA r st.rooms with
    | none =>
      simp only [getRoom, leaveRoom, hlook] at h
      exact hner _ (lookupA_mem r2 m2 st.rooms h)
    | some members =>
      simp only [getRoom, leaveRoom, hlook] at h
      by_cases hlen : (roomLeave members c).length = 0
      · rw [if_pos hlen] at h
        simp only at h
        by_cases hr : r2 = r
        · rw [hr, lookupA_eraseA_self r _ (pairwise_keys_setA r _ st.rooms hpr)] at h
          cases h
        · rw [lookupA_eraseA_ne r r2 _ hr, lookupA_setA_ne r r2 _ _ hr] at h
          exact hner _ (lookupA_mem r2 m2 st.rooms h)
      · rw [if_neg hlen] at h
        simp only at h
        by_cases hr : r2 = r
        · rw [hr, lookupA_setA_self] at h
          injection h with h2
          rw [← h2]
          exact fun hc => hlen (by rw [hc]; rfl)
        · rw [lookupA_setA_ne r r2 _ _ hr] at h
          exact hner _ (lookupA_mem r2 m2 st.rooms h)

/-- Witness for C7: from the empty registry, join-join-leave on room
r with connection c deletes the room again. -/
theorem room_lifecycle_witness :
    joinRoom (joinRoom (RoomManager.mk [] []) "c" "r") "c" "r" =
      joinRoom (RoomManager.mk [] []) "c" "r" ∧
    getRoom (joinRoom (RoomManager.mk [] []) "c" "r") "r" = some ["c"] := by
  have h := room_lifecycle (RoomManager.mk [] []) "c" "r" (by decide)
  exact ⟨h.1, h.2.1 (by decide)⟩

/-- Witness for C9: a frame declaring length 10,485,761 delivered as
a single chunk ends with the error emitted and close() called. -/
theorem oversized_length_closes_witness :
    runConn unitCodec [writeUInt32BE 10485761 ++ List.replicate 10485761 0] =
      ⟨writeUInt32BE 10485761 ++ List.replicate 10485761 0, true, true⟩ :=
  oversized_length_closes unitCodec 10485761 (List.replicate 10485761 0)
    [writeUInt32BE 10485761 ++ List.replicate 10485761 0]
    (by decide) (by decide) (List.length_replicate ..)
    (by rw [List.flatten_cons, List.flatten_nil, List.append_nil])

/-! ## C4: the connection state-machine transition table -/

open ConnectionState in
/-- C4: the state machine admits exactly the eight transitions
INIT→OPEN, OPEN→DRAINING, DRAINING→OPEN, OPEN→CLOSING,
DRAINING→CLOSING, OPEN→CLOSED, DRAINING→CLOSED, CLOSING→CLOSED; no
transition leaves CLOSED; and any attempted transition between
distinct states outside this table raises the invariant-violation
error (so the state is never assigned). -/
theorem transition_table_exact :
    (∀ a b, isTransitionAllowed a b = true ↔
      (a, b) ∈ ([(INIT, OPEN), (OPEN, DRAINING), (DRAINING, OPEN), (OPEN, CLOSING),
        (DRAINING, CLOSING), (OPEN, CLOSED), (DRAINING, CLOSED), (CLOSING, CLOSED)] :
        List (ConnectionState × ConnectionState))) ∧
    (∀ b, isTransitionAllowed CLOSED b = false) ∧
    (∀ a b, a ≠ b → isTransitionAllowed a b = false →
      transition a b = Except.error "Invalid state transition") := by
  refine ⟨?_, ?_, ?_⟩ <;> decide

/-- Witness for C4: the forbidden CLOSED→OPEN transition errors. -/
theorem transition_table_exact_witness :
    transition ConnectionState.CLOSED ConnectionState.OPEN =
      Except.error "Invalid state transition" :=
  transition_table_exact.2.2 ConnectionState.CLOSED ConnectionState.OPEN
    (by decide) (by decide)

/-! ## C6: send is silently dropped outside OPEN/DRAINING -/

/-- Connection.send never lets an exception escape to the caller: the
non-writable path returns early and the write path is wrapped in
try/catch. -/
theorem sendImpl_threw_false {J : Type} (codec : JsonCodec J) (s : ConnectionState)
    (type : Nat) (payload : Payload J) (wb : WriteBehavior) :
    (sendImpl codec s type payload wb).threw = false := by
  cases s <;> cases wb <;> simp [sendImpl] <;> split <;> rfl

open ConnectionState in
/-- C6 (amended): a send in INIT, CLOSING or CLOSED is silently
dropped — it returns without raising any error and with no observable
side effect (state, bytesSent and the socket untouched); sends are
accepted (reach socket.write, counting their bytes) exactly in the
OPEN and DRAINING states.  The original claim's `NotWritableError`
does not exist: no error is thrown or emitted on the rejected path. -/
theorem send_writable_states {J : Type} (codec : JsonCodec J) (s : ConnectionState)
    (type : Nat) (payload : Payload J) (wb : WriteBehavior) :
    ((s = INIT ∨ s = CLOSING ∨ s = CLOSED) →
      sendImpl codec s type payload wb = ⟨s, 0, false, false, false⟩) ∧
    ((s = OPEN ∨ s = DRAINING) →
      (sendImpl codec s type payload wb).bytesAdded =
        (encodeFrame codec type payload 0).length) ∧
    ((s = OPEN ∨ s = DRAINING) → ∀ cw, wb = .accepted cw →
      (sendImpl codec s type payload wb).wrote = true) ∧
    (sendImpl codec s type payload wb).threw = false := by
  refine ⟨?_, ?_, ?_, sendImpl_threw_false codec s type payload wb⟩
  · rintro (rfl | rfl | rfl) <;> simp [sendImpl]
  · rintro (rfl | rfl) <;> cases wb <;> simp [sendImpl] <;> split <;> rfl
  · rintro (rfl | rfl) cw rfl <;> simp [sendImpl] <;> split <;> rfl

/-- Witness for C6 (amended): a send while CLOSED, even with a
throwing socket, is a silent no-op. -/
theorem send_writable_states_witness :
    sendImpl unitCodec ConnectionState.CLOSED 2 (Payload.json ()) WriteBehavior.throws =
      ⟨ConnectionState.CLOSED, 0, false, false, false⟩ :=
  (send_writable_states unitCodec ConnectionState.CLOSED 2 (Payload.json ())
    WriteBehavior.throws).1 (Or.inr (Or.inr rfl))

/-- Counterexample for C6 as stated: a send while CLOSED does not
fail with a NotWritableError (no such error exists in the code) — the
call returns normally: nothing is thrown to the caller, no error
event is emitted, and nothing changes. -/
theorem send_closed_no_error :
    sendImpl unitCodec ConnectionState.CLOSED 1 Payload.none (WriteBehavior.accepted true) =
      ⟨ConnectionState.CLOSED, 0, false, false, false⟩ ∧
    (sendImpl unitCodec ConnectionState.CLOSED 1 Payload.none
      (WriteBehavior.accepted true)).threw = false ∧
    (sendImpl unitCodec ConnectionState.CLOSED 1 Payload.none
      (WriteBehavior.accepted true)).errorEvt = false := by
  decide

/-! ## C3: protocol violations do not get ERROR-frame-then-close -/

/-- C3 (code bug): the documented contract (docs/protocol.md: every
protocol violation → send an ERROR frame, then close) is not what the
code does.  Evaluated at the failing inputs: an unknown message type
(0x99) makes handleFrame send an ERROR frame but never close the
connection, while a frame claiming UTF8_JSON whose payload `7B` is
not valid JSON makes Connection.parse emit a fatal internal error
event and close, with the server's error listener only logging — so
no ERROR frame is ever sent for it. -/
theorem protocol_violation_responses :
    handleFrameEffect 153 = (DispatchAction.warnUnknownType, true, false) ∧
    parseAll unitCodec [0, 0, 0, 4, 1, 4, 1, 123] =
      ⟨[ConnEvt.errorEvt true], [], true, false⟩ ∧
    serverOnErrorEffect = (false, false) := by
  refine ⟨by decide, by decide, rfl⟩

/-! ## C8: broadcast delivery is isolated per member -/

lemma broadcast_mem {J : Type} (codec : JsonCodec J) (payload : Payload J)
    (excl : Option String) (m : Member) :
    ∀ members : List Member, m ∈ members → excl ≠ some m.id →
      (m.id, sendImpl codec m.state 4 payload m.wb) ∈ broadcast codec payload excl members := by
  intro members
  induction members with
  | nil => intro h; cases h
  | cons a rest ih =>
    intro hm hex
    rcases List.mem_cons.mp hm with rfl | hmem
    · rw [broadcast, if_neg hex]
      exact List.mem_cons_self _ _
    · by_cases hskip : excl = some a.id
      · rw [broadcast, if_pos hskip]
        exact ih hmem hex
      · rw [broadcast, if_neg hskip]
        exact List.mem_cons_of_mem _ (ih hmem hex)

lemma broadcast_threw_false {J : Type} (codec : JsonCodec J) (payload : Payload J)
    (excl : Option String) :
    ∀ members : List Member, ∀ p ∈ broadcast codec payload excl members,
      p.2.threw = false := by
  intro members
  induction members with
  | nil => intro p hp; cases hp
  | cons a rest ih =>
    intro p hp
    by_cases hskip : excl = some a.id
    · rw [broadcast, if_pos hskip] at hp
      exact ih p hp
    · rw [broadcast, if_neg hskip] at hp
      rcases List.mem_cons.mp hp with rfl | hmem
      · exact sendImpl_threw_false codec a.state 4 payload a.wb
      · exact ih p hmem

/-- C8: a failure while sending to one room member cannot affect any
other member: the broadcast loop visits every non-excluded member
unconditionally, each send call returns normally (never throws out of
the loop), and every writable member with an accepting socket gets
its frame written regardless of the states or write behaviors of all
other members. -/
theorem broadcast_isolation {J : Type} (codec : JsonCodec J) (payload : Payload J)
    (excl : Option String) (members : List Member) (m : Member)
    (hm : m ∈ members) (hex : excl ≠ some m.id)
    (hlive : m.state = ConnectionState.OPEN ∨ m.state = ConnectionState.DRAINING)
    (hok : ∃ cw, m.wb = WriteBehavior.accepted cw) :
    (m.id, sendImpl codec m.state 4 payload m.wb) ∈ broadcast codec payload excl members ∧
    (sendImpl codec m.state 4 payload m.wb).wrote = true ∧
    (∀ p ∈ broadcast codec payload excl members, p.2.threw = false) := by
  refine ⟨broadcast_mem codec payload excl m members hm hex, ?_,
    broadcast_threw_false codec payload excl members⟩
  obtain ⟨cw, hwb⟩ := hok
  rcases hlive with h | h <;> rw [h, hwb] <;> simp [sendImpl] <;> split <;> rfl

/-! ## C5: the close notification is emitted exactly once -/

lemma step_CLOSED (e : ConnEvent) :
    step ConnectionState.CLOSED e = .ok (ConnectionState.CLOSED, false) := by
  cases e <;> simp [step, closeStep, transition, Except.map]

lemma run_CLOSED (evts : List ConnEvent) :
    run ConnectionState.CLOSED evts = .ok (ConnectionState.CLOSED, 0) := by
  induction evts with
  | nil => rfl
  | cons e es ih => simp [run, step_CLOSED, ih]

open ConnectionState in
lemma run_live (evts : List ConnEvent) :
    ∀ s : ConnectionState, s = OPEN ∨ s = DRAINING ∨ s = CLOSING →
      ∃ s2, run s evts = .ok (s2, if ConnEvent.socketClose ∈ evts then 1 else 0) ∧
        (s2 = CLOSED ↔ ConnEvent.socketClose ∈ evts) := by
  induction evts with
  | nil =>
    intro s hs
    refine ⟨s, by simp [run], ?_⟩
    simp only [List.not_mem_nil, iff_false]
    rcases hs with rfl | rfl | rfl <;> simp
  | cons e es ih =>
    intro s hs
    cases e with
    | socketClose =>
      have hstep : step s ConnEvent.socketClose = .ok (CLOSED, true) := by
        rcases hs with rfl | rfl | rfl <;> decide
      refine ⟨CLOSED, ?_, by simp⟩
      simp [run, hstep, run_CLOSED]
    | closeCall =>
      have hstep : step s ConnEvent.closeCall = .ok (CLOSING, false) := by
        rcases hs with rfl | rfl | rfl <;> decide
      obtain ⟨s2, hrun, hiff⟩ := ih CLOSING (Or.inr (Or.inr rfl))
      refine ⟨s2, ?_, by simpa using hiff⟩
      simp [run, hstep, hrun]
    | socketError =>
      have hstep : step s ConnEvent.socketError = .ok (CLOSING, false) := by
        rcases hs with rfl | rfl | rfl <;> decide
      obtain ⟨s2, hrun, hiff⟩ := ih CLOSING (Or.inr (Or.inr rfl))
      refine ⟨s2, ?_, by simpa using hiff⟩
      simp [run, hstep, hrun]
    | parseFatal =>
      have hstep : step s ConnEvent.parseFatal = .ok (CLOSING, false) := by
        rcases hs with rfl | rfl | rfl <;> decide
      obtain ⟨s2, hrun, hiff⟩ := ih CLOSING (Or.inr (Or.inr rfl))
      refine ⟨s2, ?_, by simpa using hiff⟩
      simp [run, hstep, hrun]
    | socketDrain =>
      have hstep : ∃ t, step s ConnEvent.socketDrain = .ok (t, false) ∧
          (t = OPEN ∨ t = DRAINING ∨ t = CLOSING) := by
        rcases hs with rfl | rfl | rfl
        · exact ⟨OPEN, by decide, Or.inl rfl⟩
        · exact ⟨OPEN, by decide, Or.inl rfl⟩
        · exact ⟨CLOSING, by decide, Or.inr (Or.inr rfl)⟩
      obtain ⟨t, hstep, ht⟩ := hstep
      obtain ⟨s2, hrun, hiff⟩ := ih t ht
      refine ⟨s2, ?_, by simpa using hiff⟩
      simp [run, hstep, hrun]
    | sendCall cw =>
      have hstep : ∃ t, step s (ConnEvent.sendCall cw) = .ok (t, false) ∧
          (t = OPEN ∨ t = DRAINING ∨ t = CLOSING) := by
        rcases hs with rfl | rfl | rfl <;> cases cw
        · exact ⟨DRAINING, by decide, Or.inr (Or.inl rfl)⟩
        · exact ⟨OPEN, by decide, Or.inl rfl⟩
        · exact ⟨DRAINING, by decide, Or.inr (Or.inl rfl)⟩
        · exact ⟨DRAINING, by decide, Or.inr (Or.inl rfl)⟩
        · exact ⟨CLOSING, by decide, Or.inr (Or.inr rfl)⟩
        · exact ⟨CLOSING, by decide, Or.inr (Or.inr rfl)⟩
      obtain ⟨t, hstep, ht⟩ := hstep
      obtain ⟨s2, hrun, hiff⟩ := ih t ht
      refine ⟨s2, ?_, by simpa using hiff⟩
      simp [run, hstep, hrun]

/-- C5: over any interleaving of explicit close() calls, socket close
events, fatal transport/parse errors, drain events and sends, a
connection starting in OPEN (the constructor's INIT→OPEN has already
happened) runs without invariant violations, emits the terminal close
notification exactly once when a socket close event occurs (and never
otherwise), and ends in CLOSED exactly when it did — the latch on the
CLOSED transition. -/
theorem close_emitted_once (evts : List ConnEvent) :
    ∃ s2, run ConnectionState.OPEN evts =
        .ok (s2, if ConnEvent.socketClose ∈ evts then 1 else 0) ∧
      (s2 = ConnectionState.CLOSED ↔ ConnEvent.socketClose ∈ evts) :=
  run_live evts ConnectionState.OPEN (Or.inl rfl)

/-- Witness for C8: three members, the middle one's socket throwing;
the third member still gets the broadcast written. -/
theorem broadcast_isolation_witness :
    (("c", sendImpl unitCodec ConnectionState.OPEN 4 (Payload.json ())
        (WriteBehavior.accepted true)) ∈
      broadcast unitCodec (Payload.json ()) Option.none
        [⟨"a", ConnectionState.OPEN, .accepted true⟩,
         ⟨"b", ConnectionState.OPEN, .throws⟩,
         ⟨"c", ConnectionState.OPEN, .accepted true⟩]) ∧
    (sendImpl unitCodec ConnectionState.OPEN 4 (Payload.json ())
      (WriteBehavior.accepted true)).wrote = true := by
  have h := broadcast_isolation unitCodec (Payload.json ()) Option.none
    [⟨"a", ConnectionState.OPEN, .accepted true⟩,
     ⟨"b", ConnectionState.OPEN, .throws⟩,
     ⟨"c", ConnectionState.OPEN, .accepted true⟩]
    ⟨"c", ConnectionState.OPEN, .accepted true⟩
    (by decide) (by decide) (Or.inl rfl) ⟨true, rfl⟩
  exact ⟨h.1, h.2.1⟩

end Relay
